import Mathlib

/-!
Shallow embedding of `backup_script.py` (ServiceBackUp repository).

The hash index (`IncrementalBackup.hash_index`, a Python dict from remote
file path to md5 hex digest) is embedded as an association list
`List (String × String)`; `getIndex`/`setIndex` mirror `dict.get(k, "")`
and `dict[k] = v`.  An empty digest string models a failed
`md5sum` invocation (`get_remote_file_hash` returns `""` on failure).
Each remote file is a record carrying its path, its live digest, its size
and whether its single-file `scp` download would succeed.
-/

namespace ServiceBackUp

/-- The in-memory hash index: association list from remote path to digest,
embedding the Python dict `IncrementalBackup.hash_index`. -/
abbrev HashIdx := List (String × String)

/-- Embedding of `idx.get(p, "")` on the Python dict: the stored digest for `p`,
or `""` when absent. -/
def getIndex : HashIdx → String → String
  | [], _ => ""
  | (q, e) :: rest, p => if q = p then e else getIndex rest p

/-- Embedding of `idx[p] = d` on the Python dict: replace the binding for `p` or append it. -/
def setIndex : HashIdx → String → String → HashIdx
  | [], p, d => [(p, d)]
  | (q, e) :: rest, p, d => if q = p then (p, d) :: rest else (q, e) :: setIndex rest p d

/-- The set of keys bound in the index. -/
def idxDom (idx : HashIdx) : List String := idx.map Prod.fst

/-- The three states the persisted hash-index file can be in when
`IncrementalBackup.load_hash_index` runs. -/
inductive IndexFileState where
  | absent : IndexFileState
  | unparsable : IndexFileState
  | parsed : HashIdx → IndexFileState

/-- Embedding of `IncrementalBackup.load_hash_index` (backup_script.py lines 60-70):
returns `{}` when the file does not exist, returns `{}` (after logging)
when `json.load` raises, and otherwise returns the parsed mapping. -/
def load_hash_index : IndexFileState → HashIdx
  | .absent => []
  | .unparsable => []
  | .parsed m => m

/-- Embedding of `IncrementalBackup.is_first_backup` (lines 129-131):
`len(self.hash_index) == 0`. -/
def is_first_backup (idx : HashIdx) : Bool := idx.length == 0

/-- Embedding of `IncrementalBackup.should_backup_file` (lines 112-127), with the live
digest already fetched (the Python code fetches it via `md5sum`; `""` means
the fetch failed).  Returns the decision together with the updated index. -/
def should_backup_file (idx : HashIdx) (path digest : String) : Bool × HashIdx :=
  if digest = "" then
    (true, idx)
  else
    let previous := getIndex idx path
    if digest ≠ previous then (true, setIndex idx path digest)
    else (false, idx)

/-- One remote file as the orchestrator sees it: absolute path, live md5
digest (`""` if `md5sum` fails), size reported by `stat`, and whether the
per-file `scp` download would succeed. -/
structure RemoteFile where
  path : String
  digest : String
  size : Nat
  copyOk : Bool
deriving Repr, DecidableEq

/-- The filtering loop of the incremental branch of
`SSHBackup.download_directory` (lines 443-446): walk the enumerated remote
files, ask `should_backup_file` for each, collect the selected ones and
thread the mutated index. -/
def incrementalScan (idx : HashIdx) : List RemoteFile → List RemoteFile × HashIdx
  | [] => ([], idx)
  | f :: rest =>
    let s := should_backup_file idx f.path f.digest
    let r := incrementalScan s.2 rest
    (if s.1 then f :: r.1 else r.1, r.2)

/-- Embedding of `SSHBackup.build_hash_index_after_full_backup` (lines 512-525): for each
enumerated remote file whose digest is obtainable, store it in the index. -/
def build_hash_index_after_full_backup (files : List RemoteFile) (idx : HashIdx) : HashIdx :=
  match files with
  | [] => idx
  | f :: rest =>
    if f.digest ≠ "" then
      build_hash_index_after_full_backup rest (setIndex idx f.path f.digest)
    else
      build_hash_index_after_full_backup rest idx

/-- Counters produced by the per-file copy loop of the incremental branch:
`copiedFiles` is the Python `self.copied_files` counter, incremented on
success (line 482) and also in the `except` handler (line 489); `okCount`
and `failCount` split it; `okBytes` sums the sizes passed to the progress
bar on successful copies. -/
structure CopyStats where
  copiedFiles : Nat
  okCount : Nat
  failCount : Nat
  okBytes : Nat
deriving Repr, DecidableEq

/-- The per-file copy loop of `SSHBackup.download_directory`
(lines 467-491): each file is attempted; a failure is caught by the
per-iteration `except`, the counter still advances, and the loop continues
with the next file. -/
def copyLoop : List RemoteFile → CopyStats
  | [] => { copiedFiles := 0, okCount := 0, failCount := 0, okBytes := 0 }
  | f :: rest =>
    let s := copyLoop rest
    if f.copyOk then
      { copiedFiles := s.copiedFiles + 1, okCount := s.okCount + 1,
        failCount := s.failCount, okBytes := s.okBytes + f.size }
    else
      { copiedFiles := s.copiedFiles + 1, okCount := s.okCount,
        failCount := s.failCount + 1, okBytes := s.okBytes }

/-- Whether `download_directory` took the full branch or the incremental
branch (the `if is_first_backup` test at line 402). -/
inductive BackupMode where
  | full : BackupMode
  | incremental : BackupMode
deriving Repr, DecidableEq

/-- Environment of one `download_directory` call: the remote enumeration
(`find` output with digests/sizes) and whether the recursive bulk
`scp_client.get` of the full branch would succeed. -/
structure DirEnv where
  files : List RemoteFile
  bulkCopyOk : Bool
deriving Repr

/-- Observable outcome of one `download_directory` call: the returned
boolean, the in-memory index afterwards, whether `save_hash_index` was
invoked, which branch ran, how many files the incremental branch selected,
and the copy-loop counters. -/
structure DirResult where
  ok : Bool
  index : HashIdx
  saveCalled : Bool
  mode : BackupMode
  includedCount : Nat
  copiedFiles : Nat
  failedCount : Nat
deriving Repr

/-- Embedding of `SSHBackup.download_directory` (lines 394-510).  Full branch: bulk
recursive scp (its failure is the outer `except`, returning `False` with
no index build and no save), then `build_hash_index_after_full_backup`,
then `save_hash_index`, return `True`.  Incremental branch: enumerate and
filter via `should_backup_file`; an empty work list returns `True`
immediately (line 459) WITHOUT reaching the `save_hash_index` call at
line 500; otherwise run the per-file loop, save the index, return `True`. -/
def download_directory (env : DirEnv) (idx : HashIdx) : DirResult :=
  if is_first_backup idx then
    if env.bulkCopyOk then
      let idx1 := build_hash_index_after_full_backup env.files idx
      { ok := true, index := idx1, saveCalled := true, mode := .full,
        includedCount := 0, copiedFiles := 0, failedCount := 0 }
    else
      { ok := false, index := idx, saveCalled := false, mode := .full,
        includedCount := 0, copiedFiles := 0, failedCount := 0 }
  else
    let s := incrementalScan idx env.files
    if s.1.length = 0 then
      { ok := true, index := s.2, saveCalled := false, mode := .incremental,
        includedCount := 0, copiedFiles := 0, failedCount := 0 }
    else
      let stats := copyLoop s.1
      { ok := true, index := s.2, saveCalled := true, mode := .incremental,
        includedCount := s.1.length, copiedFiles := stats.copiedFiles,
        failedCount := stats.failCount }

/-- State of `ProgressBar` (lines 134-147).  Wall-clock times are modelled in
milliseconds as naturals; the Python throttle threshold `0.1` seconds is
`100`.  `renderCount` counts the `print` calls the throttle lets through. -/
structure ProgressBar where
  total : Nat
  current : Nat
  start_time : Nat
  last_update : Nat
  show_file_info : Bool
  current_file : String
  transferred_size : Nat
  renderCount : Nat
deriving Repr, DecidableEq

/-- Constructor `ProgressBar.__init__`: zeroed counters, `last_update = 0`. -/
def ProgressBar.init (total : Nat) (show_file_info : Bool) (start : Nat) : ProgressBar :=
  { total := total, current := 0, start_time := start, last_update := 0,
    show_file_info := show_file_info, current_file := "", transferred_size := 0,
    renderCount := 0 }

/-- Embedding of `ProgressBar.update` (lines 149-235).  The counters `current`,
`current_file` and `transferred_size` are written before the throttle test
`now - last_update < 0.1`; when the test fires the method returns without
rendering, otherwise `last_update` is reset and one render is printed. -/
def ProgressBar.update (pb : ProgressBar) (now : Nat) (current : Nat)
    (current_file : String) (file_size : Nat) : ProgressBar :=
  let pb1 := { pb with current := current }
  let pb2 := if current_file ≠ "" then { pb1 with current_file := current_file } else pb1
  let pb3 := if file_size > 0 then
      { pb2 with transferred_size := pb2.transferred_size + file_size } else pb2
  if now - pb3.last_update < 100 then pb3
  else { pb3 with last_update := now, renderCount := pb3.renderCount + 1 }

/-- One call to `ProgressBar.update`: the wall-clock time of the call and
the three arguments. -/
structure UpdateEvent where
  now : Nat
  current : Nat
  file : String
  bytes : Nat
deriving Repr, DecidableEq

/-- A sequence of `update` calls applied in order. -/
def runUpdates (pb : ProgressBar) : List UpdateEvent → ProgressBar
  | [] => pb
  | e :: rest => runUpdates (pb.update e.now e.current e.file e.bytes) rest

/-- The total transferred bytes `ProgressBar.finish` (lines 237-276) reports
in its summary line: it reads `self.transferred_size` directly, with no
throttling. -/
def ProgressBar.finishTotalBytes (pb : ProgressBar) : Nat := pb.transferred_size

/-- Embedding of `BackupManager.cleanup_old_backups` (lines 640-658), for one server
directory.  `entries` are the names of the subdirectories of the server
directory; `deleteOk` tells whether `shutil.rmtree` would succeed on a given
version directory (a failure is caught per entry and the loop continues).
Returns the list of directories the loop attempts to delete
(`backup_dirs[max_versions:]` after the descending sort) and the sublist
actually removed from disk. -/
def cleanup_old_backups (entries : List String) (maxVersions : Nat)
    (deleteOk : String → Bool) : List String × List String :=
  let backup_dirs := entries.filter (fun d => decide (d ≠ "current"))
  let sorted := backup_dirs.mergeSort (fun a b => decide (b ≤ a))
  let toDelete := sorted.drop maxVersions
  (toDelete, toDelete.filter deleteOk)

/-- Environment of one `BackupManager.backup_server` call: whether
`SSHBackup.connect` succeeds, the environment of each configured remote
path, and whether `copy_backup_to_version` would raise. -/
structure ServerEnv where
  connectOk : Bool
  pathEnvs : List DirEnv
  snapshotRaises : Bool

/-- Observable outcome of one `backup_server` call: the returned boolean,
whether the version directory reserved at campaign start still exists on
disk afterwards, whether the snapshot was materialized into it, whether
`cleanup_old_backups` ran, and the per-path results. -/
structure CampaignResult where
  success : Bool
  versionDirRemains : Bool
  snapshotCreated : Bool
  retentionRan : Bool
  pathResults : List DirResult

/-- The per-path loop of `backup_server` (lines 575-588): each configured
remote path is backed up with `download_directory`, threading the shared
in-memory hash index of the single `IncrementalBackup` instance created at
line 563. -/
def runPaths (idx : HashIdx) : List DirEnv → List DirResult × HashIdx
  | [] => ([], idx)
  | e :: rest =>
    let r := download_directory e idx
    let p := runPaths r.index rest
    (r :: p.1, p.2)

/-- Embedding of `BackupManager.backup_server` (lines 539-623).  The version directory is
created unconditionally at line 555.  A connect failure returns `False` at
line 570, straight out of the `try`, so neither the success branch nor the
rollback branch runs and the empty version directory stays on disk.
Otherwise success is the conjunction of the per-path results; on success the
snapshot copy is attempted inside its own `try` (an exception is only
logged) and retention runs; on failure the version directory is removed. -/
def backup_server (env : ServerEnv) (idx0 : HashIdx) : CampaignResult :=
  if env.connectOk then
    let rs := (runPaths idx0 env.pathEnvs).1
    if rs.all (fun r => r.ok) then
      { success := true, versionDirRemains := true,
        snapshotCreated := !env.snapshotRaises, retentionRan := true,
        pathResults := rs }
    else
      { success := false, versionDirRemains := false,
        snapshotCreated := false, retentionRan := false, pathResults := rs }
  else
    { success := false, versionDirRemains := true,
      snapshotCreated := false, retentionRan := false, pathResults := [] }

/-- The file paths enumerated for one remote-path environment. -/
def envPaths (e : DirEnv) : List String := e.files.map (fun f => f.path)

/-! ## Helper lemmas about the association-list index -/

theorem idxDom_cons (p d : String) (rest : HashIdx) :
    idxDom ((p, d) :: rest) = p :: idxDom rest := rfl

theorem idxDom_eq_nil_iff (idx : HashIdx) : idxDom idx = [] ↔ idx = [] := by
  simp [idxDom]

theorem getIndex_setIndex_self (idx : HashIdx) (p d : String) :
    getIndex (setIndex idx p d) p = d := by
  induction idx with
  | nil => simp [setIndex, getIndex]
  | cons hd rest ih =>
    obtain ⟨q, e⟩ := hd
    by_cases hq : q = p
    · simp [setIndex, hq, getIndex]
    · simp [setIndex, hq, getIndex, ih]

theorem getIndex_setIndex_ne (idx : HashIdx) (p d q : String) (h : q ≠ p) :
    getIndex (setIndex idx p d) q = getIndex idx q := by
  induction idx with
  | nil =>
    simp only [setIndex, getIndex]
    rw [if_neg (fun he => h he.symm)]
  | cons hd rest ih =>
    obtain ⟨r, e⟩ := hd
    by_cases hr : r = p
    · subst hr
      simp only [setIndex, if_pos rfl, getIndex]
      rw [if_neg (fun he => h he.symm), if_neg (fun he => h he.symm)]
    · simp only [setIndex, if_neg hr, getIndex, ih]

theorem mem_idxDom_setIndex (idx : HashIdx) (p d q : String) :
    q ∈ idxDom (setIndex idx p d) ↔ q = p ∨ q ∈ idxDom idx := by
  induction idx with
  | nil => simp [setIndex, idxDom]
  | cons hd rest ih =>
    obtain ⟨r, e⟩ := hd
    by_cases hr : r = p
    · subst hr
      simp [setIndex, idxDom_cons]
    · simp [setIndex, hr, idxDom_cons, ih]
      tauto

theorem getIndex_eq_empty_of_not_mem (idx : HashIdx) (q : String)
    (h : q ∉ idxDom idx) : getIndex idx q = "" := by
  induction idx with
  | nil => rfl
  | cons hd rest ih =>
    obtain ⟨r, e⟩ := hd
    rw [idxDom_cons] at h
    simp only [List.mem_cons, not_or] at h
    rw [getIndex, if_neg (fun he => h.1 he.symm)]
    exact ih h.2

/-! ## Helper lemmas about `should_backup_file` -/

theorem should_backup_file_snd (idx : HashIdx) (p d : String) :
    (should_backup_file idx p d).2 = idx ∨
    (should_backup_file idx p d).2 = setIndex idx p d := by
  simp only [should_backup_file]
  split
  · exact Or.inl rfl
  · split
    · exact Or.inr rfl
    · exact Or.inl rfl

theorem getIndex_sbf_self (idx : HashIdx) (p d : String) (h : d ≠ "") :
    getIndex (should_backup_file idx p d).2 p = d := by
  simp only [should_backup_file]
  split
  · next he => exact absurd he h
  · split
    · exact getIndex_setIndex_self idx p d
    · next h2 => exact (not_not.mp h2).symm

theorem getIndex_sbf_ne (idx : HashIdx) (p d q : String) (h : q ≠ p) :
    getIndex (should_backup_file idx p d).2 q = getIndex idx q := by
  rcases should_backup_file_snd idx p d with h2 | h2 <;> rw [h2]
  exact getIndex_setIndex_ne idx p d q h

theorem mem_idxDom_sbf_of_mem (idx : HashIdx) (p d q : String)
    (h : q ∈ idxDom idx) : q ∈ idxDom (should_backup_file idx p d).2 := by
  rcases should_backup_file_snd idx p d with h2 | h2 <;> rw [h2]
  · exact h
  · exact (mem_idxDom_setIndex idx p d q).2 (Or.inr h)

theorem mem_idxDom_sbf (idx : HashIdx) (p d q : String)
    (h : q ∈ idxDom (should_backup_file idx p d).2) :
    q = p ∨ q ∈ idxDom idx := by
  rcases should_backup_file_snd idx p d with h2 | h2 <;> rw [h2] at h
  · exact Or.inr h
  · exact (mem_idxDom_setIndex idx p d q).1 h

theorem sbf_fst_of_fresh (idx : HashIdx) (p d : String)
    (h : getIndex idx p = "") : (should_backup_file idx p d).1 = true := by
  unfold should_backup_file
  by_cases hd : d = ""
  · simp [hd]
  · simp [hd, h]

/-! ## Helper lemmas about `incrementalScan` -/

theorem scan_dom_mono (fs : List RemoteFile) (idx : HashIdx) (q : String)
    (h : q ∈ idxDom idx) : q ∈ idxDom (incrementalScan idx fs).2 := by
  induction fs generalizing idx with
  | nil => exact h
  | cons f rest ih =>
    simp only [incrementalScan]
    exact ih _ (mem_idxDom_sbf_of_mem idx f.path f.digest q h)

theorem scan_dom_sub (fs : List RemoteFile) (idx : HashIdx) (q : String)
    (h : q ∈ idxDom (incrementalScan idx fs).2) :
    q ∈ idxDom idx ∨ q ∈ fs.map (fun f => f.path) := by
  induction fs generalizing idx with
  | nil => exact Or.inl h
  | cons f rest ih =>
    simp only [incrementalScan] at h
    rcases ih _ h with h2 | h2
    · rcases mem_idxDom_sbf idx f.path f.digest q h2 with h3 | h3
      · right
        simp [h3]
      · exact Or.inl h3
    · right
      simp [h2]

theorem scan_ne_nil (fs : List RemoteFile) (idx : HashIdx) (h : idx ≠ []) :
    (incrementalScan idx fs).2 ≠ [] := by
  intro hnil
  rcases idx with _ | ⟨⟨p, d⟩, rest⟩
  · exact h rfl
  · have hm : p ∈ idxDom (incrementalScan ((p, d) :: rest) fs).2 :=
      scan_dom_mono fs _ p (by simp [idxDom_cons])
    rw [hnil] at hm
    simp [idxDom] at hm

theorem scan_getIndex_of_not_mem (fs : List RemoteFile) (idx : HashIdx) (q : String)
    (h : q ∉ fs.map (fun f => f.path)) :
    getIndex (incrementalScan idx fs).2 q = getIndex idx q := by
  induction fs generalizing idx with
  | nil => rfl
  | cons f rest ih =>
    simp only [List.map_cons, List.mem_cons, not_or] at h
    simp only [incrementalScan]
    rw [ih _ h.2, getIndex_sbf_ne idx f.path f.digest q h.1]

theorem scan_getIndex_of_mem (fs : List RemoteFile) (idx : HashIdx)
    (hnd : (fs.map (fun f => f.path)).Nodup) :
    ∀ f ∈ fs, f.digest ≠ "" → getIndex (incrementalScan idx fs).2 f.path = f.digest := by
  induction fs generalizing idx with
  | nil => intro f hf; exact absurd hf (List.not_mem_nil f)
  | cons g rest ih =>
    simp only [List.map_cons, List.nodup_cons] at hnd
    intro f hf hd
    rcases List.mem_cons.mp hf with rfl | hf2
    · simp only [incrementalScan]
      rw [scan_getIndex_of_not_mem rest _ f.path hnd.1]
      exact getIndex_sbf_self idx f.path f.digest hd
    · simp only [incrementalScan]
      exact ih _ hnd.2 f hf2 hd

theorem scan_eq_nil_of_unchanged (fs : List RemoteFile) (idx : HashIdx)
    (h : ∀ f ∈ fs, f.digest ≠ "" ∧ getIndex idx f.path = f.digest) :
    incrementalScan idx fs = ([], idx) := by
  induction fs with
  | nil => rfl
  | cons g rest ih =>
    have hg := h g (List.mem_cons_self g rest)
    have hsbf : should_backup_file idx g.path g.digest = (false, idx) := by
      simp only [should_backup_file]
      rw [if_neg hg.1, if_neg (not_not.mpr hg.2.symm)]
    simp only [incrementalScan, hsbf]
    rw [ih (fun f hf => h f (List.mem_cons_of_mem g hf))]
    simp

theorem scan_selects_all_of_fresh (fs : List RemoteFile) (idx : HashIdx)
    (hf : ∀ f ∈ fs, f.path ∉ idxDom idx)
    (hnd : (fs.map (fun f => f.path)).Nodup) :
    (incrementalScan idx fs).1 = fs := by
  induction fs generalizing idx with
  | nil => rfl
  | cons g rest ih =>
    simp only [List.map_cons, List.nodup_cons] at hnd
    have hfresh : getIndex idx g.path = "" :=
      getIndex_eq_empty_of_not_mem idx g.path (hf g (List.mem_cons_self g rest))
    have hfst : (should_backup_file idx g.path g.digest).1 = true :=
      sbf_fst_of_fresh idx g.path g.digest hfresh
    have hrest : ∀ f ∈ rest, f.path ∉ idxDom (should_backup_file idx g.path g.digest).2 := by
      intro f hfm hmem
      rcases mem_idxDom_sbf idx g.path g.digest f.path hmem with h3 | h3
      · exact hnd.1 (h3 ▸ List.mem_map_of_mem (fun f => f.path) hfm)
      · exact hf f (List.mem_cons_of_mem g hfm) h3
    simp only [incrementalScan, hfst, if_pos]
    rw [ih _ hrest hnd.2]

/-! ## Helper lemmas about `build_hash_index_after_full_backup` -/

theorem build_dom_mono (fs : List RemoteFile) (idx : HashIdx) (q : String)
    (h : q ∈ idxDom idx) :
    q ∈ idxDom (build_hash_index_after_full_backup fs idx) := by
  induction fs generalizing idx with
  | nil => exact h
  | cons f rest ih =>
    simp only [build_hash_index_after_full_backup]
    split
    · exact ih _ ((mem_idxDom_setIndex idx f.path f.digest q).2 (Or.inr h))
    · exact ih _ h

theorem build_dom_sub (fs : List RemoteFile) (idx : HashIdx) (q : String)
    (h : q ∈ idxDom (build_hash_index_after_full_backup fs idx)) :
    q ∈ idxDom idx ∨ q ∈ fs.map (fun f => f.path) := by
  induction fs generalizing idx with
  | nil => exact Or.inl h
  | cons f rest ih =>
    simp only [build_hash_index_after_full_backup] at h
    split at h
    · rcases ih _ h with h2 | h2
      · rcases (mem_idxDom_setIndex idx f.path f.digest q).1 h2 with h3 | h3
        · right
          simp [h3]
        · exact Or.inl h3
      · right
        simp [h2]
    · rcases ih _ h with h2 | h2
      · exact Or.inl h2
      · right
        simp [h2]

theorem build_dom_of_digest (fs : List RemoteFile) (idx : HashIdx) (f : RemoteFile)
    (hm : f ∈ fs) (hd : f.digest ≠ "") :
    f.path ∈ idxDom (build_hash_index_after_full_backup fs idx) := by
  induction fs generalizing idx with
  | nil => exact absurd hm (List.not_mem_nil f)
  | cons g rest ih =>
    rcases List.mem_cons.mp hm with rfl | hm2
    · simp only [build_hash_index_after_full_backup, if_pos hd]
      exact build_dom_mono rest _ f.path
        ((mem_idxDom_setIndex idx f.path f.digest f.path).2 (Or.inl rfl))
    · simp only [build_hash_index_after_full_backup]
      split
      · exact ih _ hm2
      · exact ih _ hm2

/-! ## Helper lemmas about the copy loop and `download_directory` -/

theorem copyLoop_copiedFiles (l : List RemoteFile) :
    (copyLoop l).copiedFiles = l.length := by
  induction l with
  | nil => rfl
  | cons f rest ih =>
    simp only [copyLoop]
    split <;> simp [ih]

theorem is_first_backup_iff (idx : HashIdx) :
    is_first_backup idx = true ↔ idx = [] := by
  cases idx <;> simp [is_first_backup]

theorem download_index_of_not_first (env : DirEnv) (idx : HashIdx) (h : idx ≠ []) :
    (download_directory env idx).index = (incrementalScan idx env.files).2 := by
  have hfb : is_first_backup idx = false := by
    cases hi : is_first_backup idx
    · rfl
    · exact absurd ((is_first_backup_iff idx).1 hi) h
  simp only [download_directory, hfb, Bool.false_eq_true, if_false]
  split <;> rfl

/-! ## Helper lemmas about `ProgressBar` -/

theorem update_current (pb : ProgressBar) (now current : Nat) (file : String)
    (size : Nat) : (pb.update now current file size).current = current := by
  simp only [ProgressBar.update]
  split <;> split <;> split <;> rfl

theorem update_transferred (pb : ProgressBar) (now current : Nat) (file : String)
    (size : Nat) :
    (pb.update now current file size).transferred_size = pb.transferred_size + size := by
  simp only [ProgressBar.update]
  by_cases hs : size > 0
  · simp only [hs, if_pos]
    split <;> split <;> rfl
  · have hz : size = 0 := Nat.eq_zero_of_not_pos hs
    subst hz
    simp only [gt_iff_lt, Nat.lt_irrefl, if_false, Nat.add_zero]
    split <;> split <;> rfl

theorem runUpdates_transferred (evs : List UpdateEvent) (pb : ProgressBar) :
    (runUpdates pb evs).transferred_size
      = pb.transferred_size + (evs.map (fun e => e.bytes)).sum := by
  induction evs generalizing pb with
  | nil => simp [runUpdates]
  | cons e rest ih =>
    simp only [runUpdates, List.map_cons, List.sum_cons]
    rw [ih, update_transferred]
    omega

/-! ## Helper lemmas about `download_directory` on a fresh path -/

theorem download_fresh (e : DirEnv) (idx : HashIdx) (h0 : idx ≠ [])
    (hf : ∀ p ∈ envPaths e, p ∉ idxDom idx) (hnd : (envPaths e).Nodup) :
    (download_directory e idx).mode = BackupMode.incremental ∧
    (download_directory e idx).includedCount = e.files.length ∧
    (download_directory e idx).index = (incrementalScan idx e.files).2 := by
  have hfb : is_first_backup idx = false := by
    cases hi : is_first_backup idx
    · rfl
    · exact absurd ((is_first_backup_iff idx).1 hi) h0
  have hall : (incrementalScan idx e.files).1 = e.files :=
    scan_selects_all_of_fresh e.files idx
      (fun f hfm => hf f.path (List.mem_map_of_mem (fun f => f.path) hfm)) hnd
  simp only [download_directory, hfb, Bool.false_eq_true, if_false, hall]
  split
  · next hlen =>
    refine ⟨rfl, ?_, rfl⟩
    simp only []
    omega
  · exact ⟨rfl, rfl, rfl⟩

theorem runPaths_incremental (envs : List DirEnv) (idx : HashIdx)
    (h0 : idx ≠ [])
    (hfresh : ∀ e ∈ envs, ∀ p ∈ envPaths e, p ∉ idxDom idx)
    (hnd : ∀ e ∈ envs, (envPaths e).Nodup)
    (hdisj : List.Pairwise (fun a b => ∀ p ∈ envPaths a, p ∉ envPaths b) envs) :
    List.Forall₂
      (fun r e => r.mode = BackupMode.incremental ∧ r.includedCount = e.files.length)
      (runPaths idx envs).1 envs := by
  induction envs generalizing idx with
  | nil => exact List.Forall₂.nil
  | cons e rest ih =>
    rcases List.pairwise_cons.mp hdisj with ⟨hde, hdrest⟩
    have hfe := hfresh e (List.mem_cons_self e rest)
    have hnde := hnd e (List.mem_cons_self e rest)
    obtain ⟨hm, hc, hidx⟩ := download_fresh e idx h0 hfe hnde
    simp only [runPaths]
    refine List.Forall₂.cons ⟨hm, hc⟩ ?_
    rw [hidx]
    refine ih _ (scan_ne_nil e.files idx h0) ?_
      (fun e2 he2 => hnd e2 (List.mem_cons_of_mem e he2)) hdrest
    intro e2 he2 p hp hmem
    rcases scan_dom_sub e.files idx p hmem with h2 | h2
    · exact hfresh e2 (List.mem_cons_of_mem e he2) p hp h2
    · exact hde e2 he2 p h2 hp

theorem is_first_backup_false_of_ne (idx : HashIdx) (h : idx ≠ []) :
    is_first_backup idx = false := by
  cases hi : is_first_backup idx
  · rfl
  · exact absurd ((is_first_backup_iff idx).1 hi) h

/-! ## Claim theorems -/

/-- Claim C3: the inclusion decision of `should_backup_file`: an empty live digest
forces inclusion with the index unchanged; a digest that is absent from the
index or differs from the stored one is recorded and the file is included;
a digest equal to the stored one is skipped with the index unchanged. -/
theorem should_backup_file_decision (idx : HashIdx) (p d : String) :
    (d = "" → should_backup_file idx p d = (true, idx)) ∧
    (d ≠ "" → getIndex idx p ≠ d → should_backup_file idx p d = (true, setIndex idx p d)) ∧
    (d ≠ "" → getIndex idx p = d → should_backup_file idx p d = (false, idx)) := by
  refine ⟨fun h => by simp [should_backup_file, h], fun h h2 => ?_, fun h h2 => ?_⟩
  · simp only [should_backup_file]
    rw [if_neg h, if_pos (fun he => h2 he.symm)]
  · simp only [should_backup_file]
    rw [if_neg h, if_neg (not_not.mpr h2.symm)]

/-- Witness for C3 at a concrete one-entry index: empty digest, changed
digest and unchanged digest. -/
theorem should_backup_file_decision_witness :
    should_backup_file [("/etc/a", "aa")] "/etc/a" "" = (true, [("/etc/a", "aa")]) ∧
    should_backup_file [("/etc/a", "aa")] "/etc/a" "bb"
      = (true, setIndex [("/etc/a", "aa")] "/etc/a" "bb") ∧
    should_backup_file [("/etc/a", "aa")] "/etc/a" "aa" = (false, [("/etc/a", "aa")]) :=
  ⟨(should_backup_file_decision [("/etc/a", "aa")] "/etc/a" "").1 rfl,
   (should_backup_file_decision [("/etc/a", "aa")] "/etc/a" "bb").2.1 (by decide) (by decide),
   (should_backup_file_decision [("/etc/a", "aa")] "/etc/a" "aa").2.2 (by decide) (by decide)⟩

/-- Claim C9: `download_directory` takes the full branch exactly when the
in-memory index is empty at the start, and `load_hash_index` returns the
empty map when the persisted file is absent or unparsable, so either state
forces full mode without a fatal error. -/
theorem full_mode_iff_empty_index (env : DirEnv) (idx : HashIdx) :
    ((download_directory env idx).mode = BackupMode.full ↔ idx = []) ∧
    load_hash_index IndexFileState.absent = [] ∧
    load_hash_index IndexFileState.unparsable = [] ∧
    (download_directory env (load_hash_index IndexFileState.absent)).mode
      = BackupMode.full ∧
    (download_directory env (load_hash_index IndexFileState.unparsable)).mode
      = BackupMode.full := by
  have hmode : ∀ idx2 : HashIdx,
      (download_directory env idx2).mode = BackupMode.full ↔ idx2 = [] := by
    intro idx2
    rcases idx2 with _ | ⟨hd, tl⟩
    · constructor
      · intro _
        rfl
      · intro _
        have h0 : is_first_backup ([] : HashIdx) = true := rfl
        simp only [download_directory, h0, if_true]
        split <;> rfl
    · have hfb : is_first_backup (hd :: tl) = false := rfl
      simp only [download_directory, hfb, Bool.false_eq_true, if_false]
      constructor
      · intro hmm
        split at hmm <;> simp at hmm
      · intro hmm
        exact absurd hmm (by simp)
  exact ⟨hmode idx, rfl, rfl, (hmode []).2 rfl, (hmode []).2 rfl⟩

/-- Claim C7: progress counters update on every `update` call regardless of the
render throttle, and the total bytes reported by `finish` equal the exact
sum of the byte arguments passed to `update`, independent of the call
times that drive throttling. -/
theorem progress_counters_exact (pb : ProgressBar) (now current : Nat)
    (file : String) (size : Nat) (total start : Nat) (sfi : Bool)
    (evs : List UpdateEvent) :
    (pb.update now current file size).current = current ∧
    (pb.update now current file size).transferred_size
      = pb.transferred_size + size ∧
    (runUpdates (ProgressBar.init total sfi start) evs).finishTotalBytes
      = (evs.map (fun e => e.bytes)).sum := by
  refine ⟨update_current pb now current file size,
    update_transferred pb now current file size, ?_⟩
  rw [ProgressBar.finishTotalBytes, runUpdates_transferred]
  simp [ProgressBar.init]

/-- Claim C4: in incremental mode the per-file loop handles every selected file
(the `copied_files` counter advances on failures too) and the operation
returns true regardless of per-file copy failures. -/
theorem incremental_loop_never_aborts (env : DirEnv) (idx : HashIdx)
    (h : idx ≠ []) :
    (download_directory env idx).ok = true ∧
    (download_directory env idx).copiedFiles
      = (download_directory env idx).includedCount := by
  have hfb : is_first_backup idx = false := is_first_backup_false_of_ne idx h
  simp only [download_directory, hfb, Bool.false_eq_true, if_false]
  split
  · exact ⟨rfl, rfl⟩
  · exact ⟨rfl, copyLoop_copiedFiles _⟩

/-- Witness for C4: two files selected, the first copy fails, the second
succeeds; the operation still processes both and returns true with a
nonzero failure count. -/
theorem incremental_loop_never_aborts_witness :
    ([("/a/f", "d0")] : HashIdx) ≠ [] ∧
    (download_directory
      { files := [{ path := "/a/f", digest := "d1", size := 4, copyOk := false },
                  { path := "/a/g", digest := "d2", size := 5, copyOk := true }],
        bulkCopyOk := true } [("/a/f", "d0")]).ok = true ∧
    (download_directory
      { files := [{ path := "/a/f", digest := "d1", size := 4, copyOk := false },
                  { path := "/a/g", digest := "d2", size := 5, copyOk := true }],
        bulkCopyOk := true } [("/a/f", "d0")]).copiedFiles
      = (download_directory
      { files := [{ path := "/a/f", digest := "d1", size := 4, copyOk := false },
                  { path := "/a/g", digest := "d2", size := 5, copyOk := true }],
        bulkCopyOk := true } [("/a/f", "d0")]).includedCount ∧
    (download_directory
      { files := [{ path := "/a/f", digest := "d1", size := 4, copyOk := false },
                  { path := "/a/g", digest := "d2", size := 5, copyOk := true }],
        bulkCopyOk := true } [("/a/f", "d0")]).failedCount = 1 :=
  ⟨by decide,
   (incremental_loop_never_aborts _ _ (by decide)).1,
   (incremental_loop_never_aborts _ _ (by decide)).2,
   by decide⟩

/-- Counterexample to claim C1: when `connect` fails, `backup_server` returns False
through the early `return` at line 570 and the version directory created
at line 555 is never rolled back, so it remains on disk. -/
theorem connect_failure_leaves_version_dir :
    (backup_server { connectOk := false, pathEnvs := [], snapshotRaises := false }
      []).success = false ∧
    (backup_server { connectOk := false, pathEnvs := [], snapshotRaises := false }
      []).versionDirRemains = true :=
  ⟨rfl, rfl⟩

/-- Claim C1 amended: whenever `backup_server` reaches its aggregate-failure exit
(a per-path failure after a successful connection), the reserved version
directory is removed; the connection-failure early return is excluded. -/
theorem rollback_on_aggregate_failure (env : ServerEnv) (idx : HashIdx)
    (hc : env.connectOk = true)
    (hf : (backup_server env idx).success = false) :
    (backup_server env idx).versionDirRemains = false := by
  simp only [backup_server, hc, if_true] at hf ⊢
  cases hall : (runPaths idx env.pathEnvs).1.all (fun r => r.ok)
  · simp only [hall, Bool.false_eq_true, if_false]
  · simp only [hall, if_true] at hf
    simp at hf

/-- Witness for C1 amended: a campaign whose single path fails its bulk
copy returns failure and removes the version directory. -/
theorem rollback_on_aggregate_failure_witness :
    ({ connectOk := true, pathEnvs := [{ files := [], bulkCopyOk := false }],
       snapshotRaises := false } : ServerEnv).connectOk = true ∧
    (backup_server
      { connectOk := true, pathEnvs := [{ files := [], bulkCopyOk := false }],
        snapshotRaises := false } []).success = false ∧
    (backup_server
      { connectOk := true, pathEnvs := [{ files := [], bulkCopyOk := false }],
        snapshotRaises := false } []).versionDirRemains = false :=
  ⟨rfl, by decide, rollback_on_aggregate_failure _ [] rfl (by decide)⟩

/-- Claim C8: when every path succeeds but the snapshot copy raises, the
exception is caught at lines 604-606, the campaign still returns true and
retention still runs (the snapshot itself is not materialized). -/
theorem snapshot_failure_keeps_success (env : ServerEnv) (idx : HashIdx)
    (hc : env.connectOk = true)
    (hall : ((runPaths idx env.pathEnvs).1).all (fun r => r.ok) = true)
    (hs : env.snapshotRaises = true) :
    (backup_server env idx).success = true ∧
    (backup_server env idx).retentionRan = true ∧
    (backup_server env idx).snapshotCreated = false := by
  simp only [backup_server, hc, if_true, hall]
  simp [hs]

/-- Witness for C8: one successful full-mode path with the snapshot copy
raising still yields overall success with retention run. -/
theorem snapshot_failure_keeps_success_witness :
    ({ connectOk := true,
       pathEnvs := [{ files := [{ path := "/a/f", digest := "d1", size := 3, copyOk := true }],
                      bulkCopyOk := true }],
       snapshotRaises := true } : ServerEnv).connectOk = true ∧
    (backup_server
      { connectOk := true,
        pathEnvs := [{ files := [{ path := "/a/f", digest := "d1", size := 3, copyOk := true }],
                       bulkCopyOk := true }],
        snapshotRaises := true } []).success = true ∧
    (backup_server
      { connectOk := true,
        pathEnvs := [{ files := [{ path := "/a/f", digest := "d1", size := 3, copyOk := true }],
                       bulkCopyOk := true }],
        snapshotRaises := true } []).retentionRan = true :=
  ⟨rfl,
   (snapshot_failure_keeps_success _ [] rfl (by decide) rfl).1,
   (snapshot_failure_keeps_success _ [] rfl (by decide) rfl).2.1⟩

/-- Counterexample to claim C2: an incremental operation whose scan selects zero
files returns True at line 459 without reaching the `save_hash_index`
call at line 500, so the index is not persisted by that operation. -/
theorem empty_worklist_skips_save :
    (download_directory
      { files := [{ path := "/a/f", digest := "d1", size := 5, copyOk := true }],
        bulkCopyOk := true } [("/a/f", "d1")]).ok = true ∧
    (download_directory
      { files := [{ path := "/a/f", digest := "d1", size := 5, copyOk := true }],
        bulkCopyOk := true } [("/a/f", "d1")]).saveCalled = false :=
  ⟨by decide, by decide⟩

/-- Claim C2 amended: the index is persisted at the end of every completed
directory operation (full branch after a successful bulk copy, incremental
branch with a nonempty work list even when per-file copies fail) except
the incremental empty-work-list case, which returns success early without
persisting. -/
theorem save_called_unless_empty_worklist (env : DirEnv) (idx : HashIdx) :
    (is_first_backup idx = true → env.bulkCopyOk = true →
      (download_directory env idx).saveCalled = true) ∧
    (is_first_backup idx = false → (incrementalScan idx env.files).1 ≠ [] →
      (download_directory env idx).saveCalled = true) ∧
    (is_first_backup idx = false → (incrementalScan idx env.files).1 = [] →
      (download_directory env idx).ok = true ∧
      (download_directory env idx).saveCalled = false) := by
  refine ⟨fun h1 h2 => ?_, fun h1 h2 => ?_, fun h1 h2 => ?_⟩
  · simp [download_directory, h1, h2]
  · simp only [download_directory, h1, Bool.false_eq_true, if_false]
    rw [if_neg (by simpa using h2)]
  · simp only [download_directory, h1, Bool.false_eq_true, if_false]
    rw [if_pos (by simp [h2])]
    exact ⟨rfl, rfl⟩

/-- Witness for C2 amended: a full-branch save, an incremental save with a
changed file, and the early-return case with no save. -/
theorem save_called_unless_empty_worklist_witness :
    (download_directory
      { files := [{ path := "/a/f", digest := "d1", size := 5, copyOk := true }],
        bulkCopyOk := true } []).saveCalled = true ∧
    (download_directory
      { files := [{ path := "/a/f", digest := "d2", size := 5, copyOk := true }],
        bulkCopyOk := true } [("/a/f", "d0")]).saveCalled = true ∧
    ((download_directory
      { files := [{ path := "/a/g", digest := "d3", size := 5, copyOk := true }],
        bulkCopyOk := true } [("/a/g", "d3")]).ok = true ∧
     (download_directory
      { files := [{ path := "/a/g", digest := "d3", size := 5, copyOk := true }],
        bulkCopyOk := true } [("/a/g", "d3")]).saveCalled = false) :=
  ⟨(save_called_unless_empty_worklist _ []).1 rfl rfl,
   (save_called_unless_empty_worklist _ [("/a/f", "d0")]).2.1 rfl (by decide),
   (save_called_unless_empty_worklist _ [("/a/g", "d3")]).2.2 rfl (by decide)⟩

/-- Claim C5: retention with limit `n` attempts to delete exactly the version
directories beyond the `n` lexicographically greatest names: the attempted
set never contains `current`, consists of version directories, has size
`count - n` (so `min n count` versions remain when every deletion
succeeds), every kept version is ≥ every deleted one, the attempted set
does not depend on which deletions fail, and each deletable entry is
removed regardless of the other entries. -/
theorem cleanup_retention (entries : List String) (n : Nat)
    (deleteOk : String → Bool) :
    (cleanup_old_backups entries n deleteOk).1
        = (cleanup_old_backups entries n (fun _ => true)).1 ∧
    "current" ∉ (cleanup_old_backups entries n deleteOk).1 ∧
    (∀ d ∈ (cleanup_old_backups entries n deleteOk).1,
        d ∈ entries.filter (fun x => decide (x ≠ "current"))) ∧
    (cleanup_old_backups entries n deleteOk).1.length
        = (entries.filter (fun x => decide (x ≠ "current"))).length - n ∧
    (entries.filter (fun x => decide (x ≠ "current"))).length
        - (cleanup_old_backups entries n deleteOk).1.length
        = min n (entries.filter (fun x => decide (x ≠ "current"))).length ∧
    (∀ v ∈ entries.filter (fun x => decide (x ≠ "current")),
        v ∉ (cleanup_old_backups entries n deleteOk).1 →
        ∀ d ∈ (cleanup_old_backups entries n deleteOk).1, d ≤ v) ∧
    (∀ x ∈ (cleanup_old_backups entries n deleteOk).1, deleteOk x = true →
        x ∈ (cleanup_old_backups entries n deleteOk).2) ∧
    (cleanup_old_backups entries n (fun _ => true)).2
        = (cleanup_old_backups entries n (fun _ => true)).1 := by
  have hfst : ∀ dk : String → Bool, (cleanup_old_backups entries n dk).1
      = ((entries.filter (fun x => decide (x ≠ "current"))).mergeSort
          (fun a b => decide (b ≤ a))).drop n := fun dk => rfl
  have hsnd : ∀ dk : String → Bool, (cleanup_old_backups entries n dk).2
      = (((entries.filter (fun x => decide (x ≠ "current"))).mergeSort
          (fun a b => decide (b ≤ a))).drop n).filter dk := fun dk => rfl
  set versions := entries.filter (fun x => decide (x ≠ "current")) with hv
  set sorted := versions.mergeSort (fun a b => decide (b ≤ a)) with hs
  have hperm : sorted.Perm versions := List.mergeSort_perm versions _
  have hpw : List.Pairwise (fun a b => decide (b ≤ a) = true) sorted :=
    List.sorted_mergeSort
      (fun a b c h1 h2 => by
        simp only [decide_eq_true_eq] at *
        exact le_trans h2 h1)
      (fun a b => by rcases le_total a b with h | h <;> simp [h])
      versions
  have hsub : ∀ d ∈ sorted.drop n, d ∈ versions := fun d hd =>
    hperm.mem_iff.1 (List.drop_subset n sorted hd)
  refine ⟨(hfst deleteOk).trans (hfst (fun _ => true)).symm, ?_, ?_, ?_, ?_, ?_, ?_, ?_⟩
  · rw [hfst]
    intro hmem
    have hcv := hsub "current" hmem
    rw [hv] at hcv
    simp [List.mem_filter] at hcv
  · rw [hfst]
    exact hsub
  · rw [hfst, List.length_drop, hperm.length_eq]
  · rw [hfst, List.length_drop, hperm.length_eq]
    omega
  · rw [hfst]
    intro v hvmem hvnot d hd
    have hvs : v ∈ sorted := hperm.mem_iff.2 hvmem
    have hvs2 : v ∈ sorted.take n ++ sorted.drop n := by
      rw [List.take_append_drop]
      exact hvs
    have hvtake : v ∈ sorted.take n := by
      rcases List.mem_append.1 hvs2 with h | h
      · exact h
      · exact absurd h hvnot
    have hsplit : List.Pairwise (fun a b => decide (b ≤ a) = true)
        (sorted.take n ++ sorted.drop n) := by
      rw [List.take_append_drop]
      exact hpw
    have hrel := (List.pairwise_append.1 hsplit).2.2 v hvtake d hd
    exact of_decide_eq_true hrel
  · rw [hfst, hsnd]
    intro x hx hok
    exact List.mem_filter.2 ⟨hx, hok⟩
  · rw [hfst, hsnd]
    simp

/-- Witness for C5: four entries including `current`, limit 2: only the
lexicographically least version is attempted, `current` survives, and the
kept-dominates-deleted order holds at a concrete pair. -/
theorem cleanup_retention_witness :
    "current" ∉ (cleanup_old_backups ["current", "b", "a", "c"] 2 (fun _ => true)).1 ∧
    (cleanup_old_backups ["current", "b", "a", "c"] 2 (fun _ => true)).1 = ["a"] ∧
    ("a" : String) ≤ "b" :=
  ⟨(cleanup_retention ["current", "b", "a", "c"] 2 (fun _ => true)).2.1,
   by simp +decide [cleanup_old_backups, List.mergeSort, List.merge],
   (cleanup_retention ["current", "b", "a", "c"] 2 (fun _ => true)).2.2.2.2.2.1
     ("b") (by decide)
     (by simp +decide [cleanup_old_backups, List.mergeSort, List.merge])
     ("a") (by simp +decide [cleanup_old_backups, List.mergeSort, List.merge])⟩

/-- Claim C6: after an incremental operation over files whose digests are all
obtainable, re-running the same operation on the resulting index with the
same enumeration and digests selects zero files and stays in incremental
mode. -/
theorem second_run_selects_zero (env : DirEnv) (idx : HashIdx)
    (h0 : idx ≠ [])
    (hd : ∀ f ∈ env.files, f.digest ≠ "")
    (hnd : (env.files.map (fun f => f.path)).Nodup) :
    (download_directory env (download_directory env idx).index).mode
      = BackupMode.incremental ∧
    (download_directory env (download_directory env idx).index).includedCount
      = 0 := by
  have hidx1 : (download_directory env idx).index = (incrementalScan idx env.files).2 :=
    download_index_of_not_first env idx h0
  have h1ne : (incrementalScan idx env.files).2 ≠ [] := scan_ne_nil env.files idx h0
  have hstored : ∀ f ∈ env.files, f.digest ≠ "" ∧
      getIndex (incrementalScan idx env.files).2 f.path = f.digest :=
    fun f hf => ⟨hd f hf, scan_getIndex_of_mem env.files idx hnd f hf (hd f hf)⟩
  have hscan : incrementalScan (incrementalScan idx env.files).2 env.files
      = ([], (incrementalScan idx env.files).2) :=
    scan_eq_nil_of_unchanged env.files _ hstored
  have hfb : is_first_backup (incrementalScan idx env.files).2 = false :=
    is_first_backup_false_of_ne _ h1ne
  rw [hidx1]
  simp [download_directory, hfb, hscan]

/-- Witness for C6: two files over a nonempty prior index; the repeated run
selects zero files. -/
theorem second_run_selects_zero_witness :
    ([("/z", "d9")] : HashIdx) ≠ [] ∧
    (download_directory
      { files := [{ path := "/a/f", digest := "d1", size := 1, copyOk := true },
                  { path := "/a/g", digest := "d2", size := 2, copyOk := false }],
        bulkCopyOk := true }
      (download_directory
        { files := [{ path := "/a/f", digest := "d1", size := 1, copyOk := true },
                    { path := "/a/g", digest := "d2", size := 2, copyOk := false }],
          bulkCopyOk := true } [("/z", "d9")]).index).includedCount = 0 :=
  ⟨by decide,
   (second_run_selects_zero
     { files := [{ path := "/a/f", digest := "d1", size := 1, copyOk := true },
                 { path := "/a/g", digest := "d2", size := 2, copyOk := false }],
       bulkCopyOk := true } [("/z", "d9")] (by decide)
     (by decide) (by decide)).2⟩

/-- Claim C10: in the first-ever campaign of a server whose first path bulk copy
succeeds and yields at least one hashable file, only the first path runs
in FULL mode; every subsequent path (files disjoint across paths, unique
within a path) runs in INCREMENTAL mode with all of its files selected as
individual per-file copies. -/
theorem first_campaign_mode_split (e1 : DirEnv) (rest : List DirEnv)
    (hbulk : e1.bulkCopyOk = true)
    (hsome : ∃ f ∈ e1.files, f.digest ≠ "")
    (hnd : ∀ e ∈ e1 :: rest, (envPaths e).Nodup)
    (hdisj : List.Pairwise (fun a b => ∀ p ∈ envPaths a, p ∉ envPaths b) (e1 :: rest)) :
    (download_directory e1 []).mode = BackupMode.full ∧
    List.Forall₂
      (fun r e => r.mode = BackupMode.incremental ∧ r.includedCount = e.files.length)
      ((runPaths [] (e1 :: rest)).1.tail) rest := by
  obtain ⟨f0, hf0, hd0⟩ := hsome
  have h0 : is_first_backup ([] : HashIdx) = true := rfl
  have hidx1 : (download_directory e1 []).index
      = build_hash_index_after_full_backup e1.files [] := by
    simp [download_directory, h0, hbulk]
  have hmode : (download_directory e1 []).mode = BackupMode.full := by
    simp [download_directory, h0, hbulk]
  have hne : build_hash_index_after_full_backup e1.files [] ≠ [] := by
    intro hnil
    have hmem := build_dom_of_digest e1.files [] f0 hf0 hd0
    rw [hnil] at hmem
    simp [idxDom] at hmem
  refine ⟨hmode, ?_⟩
  have htail : (runPaths [] (e1 :: rest)).1.tail
      = (runPaths (download_directory e1 []).index rest).1 := by
    simp only [runPaths, List.tail_cons]
  rw [htail, hidx1]
  refine runPaths_incremental rest _ hne ?_
    (fun e he => hnd e (List.mem_cons_of_mem e1 he))
    (List.pairwise_cons.mp hdisj).2
  intro e he p hp hmem
  rcases build_dom_sub e1.files [] p hmem with h2 | h2
  · simp [idxDom] at h2
  · exact (List.pairwise_cons.mp hdisj).1 e he p h2 hp

/-- Witness for C10: two configured paths on a first-ever campaign; the
first runs full, the second runs incremental with both of its files
selected. -/
theorem first_campaign_mode_split_witness :
    (download_directory
      { files := [{ path := "/a/x", digest := "d1", size := 1, copyOk := true }],
        bulkCopyOk := true } []).mode = BackupMode.full ∧
    List.Forall₂
      (fun r e => r.mode = BackupMode.incremental ∧ r.includedCount = e.files.length)
      ((runPaths []
        ([{ files := [{ path := "/a/x", digest := "d1", size := 1, copyOk := true }],
            bulkCopyOk := true },
          { files := [{ path := "/b/y", digest := "d2", size := 2, copyOk := true },
                      { path := "/b/z", digest := "", size := 3, copyOk := false }],
            bulkCopyOk := true }] : List DirEnv)).1.tail)
      ([{ files := [{ path := "/b/y", digest := "d2", size := 2, copyOk := true },
                    { path := "/b/z", digest := "", size := 3, copyOk := false }],
          bulkCopyOk := true }] : List DirEnv) :=
  first_campaign_mode_split
    { files := [{ path := "/a/x", digest := "d1", size := 1, copyOk := true }],
      bulkCopyOk := true }
    [{ files := [{ path := "/b/y", digest := "d2", size := 2, copyOk := true },
                 { path := "/b/z", digest := "", size := 3, copyOk := false }],
       bulkCopyOk := true }]
    rfl
    ⟨{ path := "/a/x", digest := "d1", size := 1, copyOk := true }, by decide, by decide⟩
    (by decide) (by decide)

end ServiceBackUp
